import Mathlib

/-!
Verification of the employee-management program (`employee-management.cpp`).

C++ `std::string` values are modelled as `List Char`; the filesystem is a
list of (path, lines) pairs together with a list of paths on which opening
a file for writing fails (modelling the environment-dependent `ofstream`
open failure).  Machine integers (`int`, `short`) are modelled as `Int`;
no value handled by the program approaches an overflow boundary.
-/

set_option maxRecDepth 10000

/-- Whitespace as classified by `istream` skipping and `std::isspace`
(C locale): space, tab, newline, vertical tab, form feed, carriage return. -/
def isWsB (c : Char) : Bool :=
  c == ' ' || c == '\t' || c == '\n' || c == Char.ofNat 11 || c == Char.ofNat 12 || c == '\r'

/-- Decimal digit test, as used by stream numeric extraction. -/
def isDigitB (c : Char) : Bool :=
  decide (48 ≤ c.toNat ∧ c.toNat ≤ 57)

/-- Model of `std::tolower` in the C locale: map A-Z to a-z, leave other bytes alone. -/
def cppToLower (c : Char) : Char :=
  if 65 ≤ c.toNat ∧ c.toNat ≤ 90 then Char.ofNat (c.toNat + 32) else c

/-- The character for a single decimal digit. -/
def digitChar (d : Nat) : Char := Char.ofNat (48 + d)

/-- Numeric value of a digit character. -/
def digitVal (c : Char) : Nat := c.toNat - 48

/-- Value of a most-significant-first list of digit characters. -/
def digitsVal (ds : List Char) : Nat := ds.foldl (fun a c => a * 10 + digitVal c) 0

/-- Decimal rendering of a natural number (auxiliary, fuel-driven so that it is
structurally recursive and kernel-reducible). -/
def natCharsAux : Nat → Nat → List Char
  | 0, _ => []
  | fuel + 1, n => if n = 0 then [] else natCharsAux fuel (n / 10) ++ [digitChar (n % 10)]

/-- Decimal rendering of a natural number, as `operator<<` prints it. -/
def natChars (n : Nat) : List Char :=
  if n = 0 then ['0'] else natCharsAux n n

/-- Decimal rendering of an `Int`, as `operator<<` prints it. -/
def intChars (i : Int) : List Char :=
  if i < 0 then '-' :: natChars i.natAbs else natChars i.natAbs

/-- Model of `std::stoi`: skip whitespace, optional sign, then the longest
digit prefix; `none` when no digits are found (`std::invalid_argument`). -/
def stoiQ (s : List Char) : Option Int :=
  let b := s.dropWhile isWsB
  let neg : Bool := b.head? == some '-'
  let signed : Bool := neg || (b.head? == some '+')
  let b1 := if signed then b.tail else b
  let ds := b1.takeWhile isDigitB
  if ds.isEmpty then none
  else some (if neg then -(Int.ofNat (digitsVal ds)) else Int.ofNat (digitsVal ds))

/-- An `istringstream` being consumed by `operator>>`: remaining buffer plus
the fail state (once failed, every further extraction is a no-op). -/
structure IStream where
  buf : List Char
  failed : Bool
deriving DecidableEq

/-- Model of `iss >> stringVar`: skip whitespace; at end of input set `failbit` and
leave the variable unchanged; otherwise extract the maximal non-whitespace
token. -/
def extractStr (st : IStream) (old : List Char) : IStream × List Char :=
  if st.failed then (st, old)
  else
    let b := st.buf.dropWhile isWsB
    if b.isEmpty then (⟨b, true⟩, old)
    else (⟨b.dropWhile (fun c => !(isWsB c)), false⟩, b.takeWhile (fun c => !(isWsB c)))

/-- Model of `iss >> intVar`: skip whitespace; at end of input set `failbit` leaving the
variable unchanged; otherwise parse an optional sign and the longest digit
prefix, storing `0` on a conversion failure (C++11 `num_get`). -/
def extractInt (st : IStream) (old : Int) : IStream × Int :=
  if st.failed then (st, old)
  else
    let b := st.buf.dropWhile isWsB
    if b.isEmpty then (⟨b, true⟩, old)
    else
      let neg : Bool := b.head? == some '-'
      let signed : Bool := neg || (b.head? == some '+')
      let b1 := if signed then b.tail else b
      let ds := b1.takeWhile isDigitB
      if ds.isEmpty then (⟨b1.dropWhile isDigitB, true⟩, 0)
      else (⟨b1.dropWhile isDigitB, false⟩,
            if neg then -(Int.ofNat (digitsVal ds)) else Int.ofNat (digitsVal ds))

/-- The `Employee` class: `id`, `firstName`, `lastName`, `username` and `file`
are the public members, `password` and `permissions` the private ones
(constructor argument order: id, firstName, lastName, username, password,
permissions). -/
structure Employee where
  id : Int
  firstName : List Char
  lastName : List Char
  username : List Char
  password : List Char
  permissions : Int
  file : List Char
deriving DecidableEq

/-- Constant `HR_PERMS = 28` (0b11100). -/
def HR_PERMS : Int := 28

/-- Constant `MANAGEMENT_PERMS = 2` (0b00010). -/
def MANAGEMENT_PERMS : Int := 2

/-- Constant `GENERAL_PERMS = 1` (0b00001). -/
def GENERAL_PERMS : Int := 1

/-- Method `Employee::isValidLogin`: exact equality on both username and password. -/
def Employee.isValidLogin (e : Employee) (username password : List Char) : Bool :=
  e.username == username && e.password == password

/-- Method `Employee::hasPermission`: bitwise-AND-nonzero test. -/
def Employee.hasPermission (e : Employee) (permission : Int) : Bool :=
  Int.land e.permissions permission != 0

/-- The single line `Employee::write` puts into the employee's file:
`id username firstName lastName password permissions`, space-separated. -/
def serializeLine (e : Employee) : List Char :=
  intChars e.id ++ ' ' :: (e.username ++ ' ' :: (e.firstName ++ ' ' ::
    (e.lastName ++ ' ' :: (e.password ++ ' ' :: intChars e.permissions))))

/-- Path `EMPLOYEE_DIR` slash `id.txt`. -/
def employeePath (id : Int) : List Char :=
  "employees/".toList ++ intChars id ++ ".txt".toList

/-- Filesystem: stored files (path, lines) plus the set of paths on which
opening for writing fails. -/
structure Fs where
  files : List (List Char × List (List Char))
  failPaths : List (List Char)
deriving DecidableEq

/-- Create or truncate-and-overwrite one file. -/
def Fs.setFile (fs : Fs) (path : List Char) (lines : List (List Char)) : Fs :=
  { fs with files := fs.files.filter (fun pr => pr.1 != path) ++ [(path, lines)] }

/-- Model of `fs::remove`: delete the file at `path` if present. -/
def Fs.removeFile (fs : Fs) (path : List Char) : Fs :=
  { fs with files := fs.files.filter (fun pr => pr.1 != path) }

/-- Method `Employee::write`: set `this->file` from the id, open (failure possible),
and on success truncate and write the record line; returns the written-back
employee and the success flag. -/
def Employee.write (e : Employee) (fs : Fs) : Fs × Employee × Bool :=
  let path := employeePath e.id
  let e' := { e with file := path }
  if fs.failPaths.contains path then (fs, e', false)
  else (fs.setFile path [serializeLine e'], e', true)

/-- One `getline` iteration of `Employee::from`: run the six extractions of
`iss >> id >> username >> firstName >> lastName >> password >> permissions`
over the employee being filled in. -/
def fromLine (e : Employee) (line : List Char) : Employee :=
  let r1 := extractInt ⟨line, false⟩ e.id
  let r2 := extractStr r1.1 e.username
  let r3 := extractStr r2.1 e.firstName
  let r4 := extractStr r3.1 e.lastName
  let r5 := extractStr r4.1 e.password
  let r6 := extractInt r5.1 e.permissions
  { e with id := r1.2, username := r2.2, firstName := r3.2,
           lastName := r4.2, password := r5.2, permissions := r6.2 }

/-- Body of `Employee::from` once the file is open: fold the extraction over
every line, then record the file path on the employee. -/
def fromLinesFile (lines : List (List Char)) (path : List Char) (e : Employee) : Employee :=
  { lines.foldl fromLine e with file := path }

/-- Method `Employee::from`: returns `none` (false) only when the file cannot be
opened; otherwise the filled-in employee. -/
def employeeFrom (contents : Option (List (List Char))) (path : List Char)
    (e : Employee) : Option Employee :=
  contents.map (fun lines => fromLinesFile lines path e)

/-- A default-constructed `Employee() {}`: the strings default-construct to
empty; the `int`/`short` members are indeterminate in C++ and are modelled
as 0 (no theorem below depends on these two values). -/
def defaultEmployee : Employee := ⟨0, [], [], [], [], 0, []⟩

/-- One entry of `fs::directory_iterator(EMPLOYEE_DIR)`: the filename stem,
the extension, and the file's lines. -/
structure DirFile where
  stem : List Char
  ext : List Char
  lines : List (List Char)
deriving DecidableEq

/-- Full path of a directory entry. -/
def DirFile.path (f : DirFile) : List Char :=
  "employees/".toList ++ f.stem ++ f.ext

/-- The application state: the logged-in employee, the employee vector, the
id counter, and the filesystem it acts upon. -/
structure App where
  employee : Employee
  employees : List Employee
  currentId : Int
  fs : Fs
deriving DecidableEq

/-- The directory loop of `Application::Application`: for each file build an
employee via `Employee::from` (result ignored), raise `currentId` to the
stem's `stoi` value when that parses (`catch` leaves the counter alone), and
push the employee. -/
def loadLoop : Int → List Employee → List DirFile → Int × List Employee
  | cur, acc, [] => (cur, acc)
  | cur, acc, f :: rest =>
      let e := fromLinesFile f.lines f.path defaultEmployee
      let cur' := match stoiQ f.stem with
                  | some id => if id > cur then id else cur
                  | none => cur
      loadLoop cur' (acc ++ [e]) rest

/-- Constructor `Application::Application` on an existing storage directory: `currentId`
starts at 1, then the directory is iterated. -/
def loadApp (files : List DirFile) (fs : Fs) : App :=
  let res := loadLoop 1 [] files
  { employee := defaultEmployee, employees := res.2, currentId := res.1, fs := fs }

/-- The scan inside `Application::login`: first employee accepting the
credentials. -/
def loginScan (username password : List Char) : List Employee → Option Employee
  | [] => none
  | e :: rest =>
      if e.isValidLogin username password then some e
      else loginScan username password rest

/-- Method `Application::login`: on the first match store it as the logged-in
employee and return true; otherwise leave everything unchanged and return
false. -/
def login (app : App) (username password : List Char) : App × Bool :=
  match loginScan username password app.employees with
  | some e => ({ app with employee := e }, true)
  | none => (app, false)

/-- The erase loop of `Application::removeEmployeeById`: delete the backing
file and erase the first employee whose id matches, then break. -/
def removeLoop : Fs → Int → List Employee → Fs × List Employee
  | fs, _, [] => (fs, [])
  | fs, id, e :: rest =>
      if e.id = id then (fs.removeFile e.file, rest)
      else
        let res := removeLoop fs id rest
        (res.1, e :: res.2)

/-- Method `Application::removeEmployeeById`: refuse (no-op) when `id` is the
logged-in employee's id, otherwise run the erase loop. -/
def removeEmployeeById (app : App) (id : Int) : App :=
  if id = app.employee.id then app
  else
    let res := removeLoop app.fs id app.employees
    { app with fs := res.1, employees := res.2 }

/-- Model of `std::string::find(query) != npos`: contiguous-substring test (the empty
needle is found at position 0). -/
def containsSubstr : List Char → List Char → Bool
  | hay, needle =>
    if needle.isPrefixOf hay then true
    else
      match hay with
      | [] => false
      | _ :: t => containsSubstr t needle

/-- Method `Application::searchMatch`: lowercase both strings, then substring test. -/
def searchMatch (test query : List Char) : Bool :=
  containsSubstr (test.map cppToLower) (query.map cppToLower)

/-- Method `Application::searchEmployees`: keep, in order, every employee matching on
first name, last name or username. -/
def searchEmployees (app : App) (query : List Char) : List Employee :=
  app.employees.filter (fun e =>
    searchMatch e.firstName query || searchMatch e.lastName query ||
      searchMatch e.username query)

/-- The employee constructed and pushed by
`AddEmployeeScreen::renderInteractiveContent` (before `write` sets `file`). -/
def newEmployee (id : Int) (firstName lastName username password : List Char)
    (isHR isMan : Int) : Employee :=
  ⟨id, firstName, lastName, username, password,
   Int.lor (Int.lor (HR_PERMS * isHR) (MANAGEMENT_PERMS * isMan)) GENERAL_PERMS, []⟩

/-- Tail of `AddEmployeeScreen::renderInteractiveContent` after the prompts:
increment `currentId`, construct the employee, call `write` (result
discarded) and push the written-back employee. -/
def addEmployee (app : App) (firstName lastName username password : List Char)
    (isHR isMan : Int) : App :=
  let cur := app.currentId + 1
  let e := newEmployee cur firstName lastName username password isHR isMan
  let res := e.write app.fs
  { app with currentId := cur, employees := app.employees ++ [res.2.1], fs := res.1 }

/-- A menu option: position, target screen name, display name. -/
structure MenuOption where
  menuPosition : Int
  screenName : List Char
  name : List Char
deriving DecidableEq

/-- The fixed five-entry screen catalog of `MenuScreen::buildMenuOptions`. -/
def menuCatalog : List (List Char × List Char) :=
  [( "list".toList, "View Employees".toList),
   ( "search".toList, "Search Employees".toList),
   ( "add".toList, "Add Employee".toList),
   ( "remove".toList, "Remove Employee".toList),
   ( "file".toList, "View Your File".toList)]

/-- The permission gate of the `switch` in `MenuScreen::buildMenuOptions`. -/
def menuCond (i : Nat) (e : Employee) : Bool :=
  if i = 0 ∨ i = 1 then e.hasPermission HR_PERMS || e.hasPermission MANAGEMENT_PERMS
  else if i = 2 ∨ i = 3 then e.hasPermission HR_PERMS
  else e.hasPermission GENERAL_PERMS

/-- Method `MenuScreen::buildMenuOptions`: walk the catalog, keeping the permitted
entries and numbering them `options.size() + 1`. -/
def buildMenuOptions (e : Employee) : List MenuOption :=
  [0, 1, 2, 3, 4].foldl
    (fun (opts : List MenuOption) (i : Nat) =>
      if menuCond i e then
        opts ++ [⟨(opts.length : Int) + 1, (menuCatalog.getD i ([], [])).1,
                 (menuCatalog.getD i ([], [])).2⟩]
      else opts)
    []

/-! ### General helper lemmas -/

theorem nat_testBit_of_subset {q r : Nat} (h : q &&& r = q) {k : Nat}
    (hq : Nat.testBit q k = true) : Nat.testBit r k = true := by
  have hk := congrArg (fun x => Nat.testBit x k) h
  simp only [Nat.testBit_land] at hk
  rw [hq] at hk
  simpa using hk

theorem nat_land_mono {m q r : Nat} (h : q &&& r = q) (hq : m &&& q ≠ 0) :
    m &&& r ≠ 0 := by
  intro h0
  apply hq
  apply Nat.eq_of_testBit_eq
  intro k
  have hk := congrArg (fun x => Nat.testBit x k) h0
  simp only [Nat.testBit_land, Nat.zero_testBit] at hk ⊢
  by_cases hqk : Nat.testBit q k
  · have hrk := nat_testBit_of_subset h hqk
    simp [hrk] at hk
    simp [hk]
  · simp [hqk]

theorem nat_ldiff_mono {m q r : Nat} (h : q &&& r = q) (hq : Nat.ldiff q m ≠ 0) :
    Nat.ldiff r m ≠ 0 := by
  intro h0
  apply hq
  apply Nat.eq_of_testBit_eq
  intro k
  have hk := congrArg (fun x => Nat.testBit x k) h0
  simp only [Nat.testBit_ldiff, Nat.zero_testBit] at hk ⊢
  by_cases hqk : Nat.testBit q k
  · have hrk := nat_testBit_of_subset h hqk
    simp [hrk] at hk
    simp [hk, hqk]
  · simp [hqk]

theorem int_land_mono (p : Int) {q r : Nat} (h : q &&& r = q)
    (hq : Int.land p (Int.ofNat q) ≠ 0) : Int.land p (Int.ofNat r) ≠ 0 := by
  cases p with
  | ofNat m =>
      have hq' : m &&& q ≠ 0 := by
        intro h0
        apply hq
        show Int.ofNat (m &&& q) = 0
        rw [h0]
        rfl
      intro h0
      have h0' : Int.ofNat (m &&& r) = 0 := h0
      exact nat_land_mono h hq' (Int.ofNat_eq_zero.mp h0')
  | negSucc m =>
      have hq' : Nat.ldiff q m ≠ 0 := by
        intro h0
        apply hq
        show Int.ofNat (Nat.ldiff q m) = 0
        rw [h0]
        rfl
      intro h0
      have h0' : Int.ofNat (Nat.ldiff r m) = 0 := h0
      exact nat_ldiff_mono h hq' (Int.ofNat_eq_zero.mp h0')

theorem int_ofNat_four : (4 : Int) = Int.ofNat 4 := rfl

theorem int_ofNat_twentyeight : (28 : Int) = Int.ofNat 28 := rfl

/-- C5: for every employee and every mask, `hasPermission(mask)` returns true
if and only if the bitwise AND of the employee's permissions with the mask is
nonzero; in particular `hasPermission(HR_PERMS)` is true whenever at least one
of the three HR-group bits (4, 8 or 16 inside 28 = 0b11100) is set, even if
the other two are clear. -/
theorem hasPermission_spec (e : Employee) (mask : Int) :
    (e.hasPermission mask = true ↔ Int.land e.permissions mask ≠ 0) ∧
    ((Int.land e.permissions 4 ≠ 0 ∨ Int.land e.permissions 8 ≠ 0 ∨
        Int.land e.permissions 16 ≠ 0) → e.hasPermission HR_PERMS = true) := by
  constructor
  · simp [Employee.hasPermission, bne_iff_ne]
  · intro hbit
    have h28 : Int.land e.permissions 28 ≠ 0 := by
      rcases hbit with h4 | h8 | h16
      · exact (show (28 : Int) = Int.ofNat 28 from rfl) ▸
          int_land_mono e.permissions (q := 4) (by decide)
            ((show (4 : Int) = Int.ofNat 4 from rfl) ▸ h4)
      · exact (show (28 : Int) = Int.ofNat 28 from rfl) ▸
          int_land_mono e.permissions (q := 8) (by decide)
            ((show (8 : Int) = Int.ofNat 8 from rfl) ▸ h8)
      · exact (show (28 : Int) = Int.ofNat 28 from rfl) ▸
          int_land_mono e.permissions (q := 16) (by decide)
            ((show (16 : Int) = Int.ofNat 16 from rfl) ▸ h16)
    simp [Employee.hasPermission, HR_PERMS, bne_iff_ne]
    exact h28

/-- Witness for C5 at a concrete employee holding only the 4-bit of the
HR group. -/
theorem hasPermission_spec_witness :
    (⟨0, [], [], [], [], 4, []⟩ : Employee).hasPermission HR_PERMS = true :=
  (hasPermission_spec ⟨0, [], [], [], [], 4, []⟩ 0).2 (Or.inl (by decide))

theorem containsSubstr_nil_needle (hay : List Char) : containsSubstr hay [] = true := by
  cases hay with
  | nil => rfl
  | cons c t => rfl

theorem searchMatch_nil_query (test : List Char) : searchMatch test [] = true := by
  unfold searchMatch
  simp [containsSubstr_nil_needle]

/-- C9: for every directory state, searching with the empty-string query
returns every employee in the directory, in directory iteration order (the
empty string is a substring of every name). -/
theorem searchEmployees_empty_query (app : App) : searchEmployees app [] = app.employees := by
  unfold searchEmployees
  apply List.filter_eq_self.mpr
  intro e _
  simp [searchMatch_nil_query]

theorem write_snd_fst (e : Employee) (fs : Fs) :
    (e.write fs).2.1 = { e with file := employeePath e.id } := by
  unfold Employee.write
  dsimp only
  split
  · rfl
  · rfl

/-- C8: adding an employee with the HR prompt answered 0 and the Management
prompt answered 1 produces a permissions mask equal to
`GENERAL_PERMS | MANAGEMENT_PERMS = 3`, and for an employee with that mask the
menu shows the list and search options but not the add and remove options. -/
theorem add_hr0_man1_menu (app : App) (fn ln un pw : List Char) :
    ∃ e, (addEmployee app fn ln un pw 0 1).employees = app.employees ++ [e] ∧
      e.permissions = 3 ∧
      (buildMenuOptions e).map (fun o => o.screenName) =
        [ "list".toList, "search".toList, "file".toList] := by
  refine ⟨(Employee.write (newEmployee (app.currentId + 1) fn ln un pw 0 1) app.fs).2.1,
    rfl, ?_, ?_⟩
  · rw [write_snd_fst]
    rfl
  · rw [write_snd_fst]
    rfl

theorem if_gt_eq_max (a b : Int) : (if b > a then b else a) = max a b := by
  rcases le_or_lt b a with h | h
  · rw [if_neg (not_lt.mpr h), max_eq_left h]
  · rw [if_pos h, max_eq_right (le_of_lt h)]

theorem loadLoop_fst (files : List DirFile) : ∀ (cur : Int) (acc : List Employee),
    (loadLoop cur acc files).1 = (files.filterMap (fun f => stoiQ f.stem)).foldl max cur := by
  induction files with
  | nil => intro cur acc; rfl
  | cons f rest ih =>
      intro cur acc
      unfold loadLoop
      cases h : stoiQ f.stem with
      | none => simp only [if_gt_eq_max, ih, List.filterMap_cons, h]
      | some id =>
          simp only [if_gt_eq_max, ih, List.filterMap_cons, h, List.foldl_cons]
  
theorem loadLoop_snd (files : List DirFile) : ∀ (cur : Int) (acc : List Employee),
    (loadLoop cur acc files).2 =
      acc ++ files.map (fun f => fromLinesFile f.lines f.path defaultEmployee) := by
  induction files with
  | nil => intro cur acc; simp [loadLoop]
  | cons f rest ih =>
      intro cur acc
      unfold loadLoop
      cases h : stoiQ f.stem with
      | none => simp only [h, List.map_cons, ih, List.append_assoc, List.cons_append,
          List.nil_append, List.singleton_append]
      | some id => simp only [h, List.map_cons, ih, List.append_assoc, List.cons_append,
          List.nil_append, List.singleton_append]

/-- C6 (amended): after loading a storage directory the next-id counter equals
`max 1 (max of the ids parsed from the file stems)` — the last id already in
use, not that maximum plus one — and an added employee is assigned
`currentId + 1` (the counter being incremented first), so the first id
assigned on an empty storage is 2. -/
theorem nextId_spec (files : List DirFile) (fs : Fs) (app : App)
    (fn ln un pw : List Char) (isHR isMan : Int) :
    (loadApp files fs).currentId = (files.filterMap (fun f => stoiQ f.stem)).foldl max 1 ∧
    ∃ e, (addEmployee app fn ln un pw isHR isMan).employees = app.employees ++ [e] ∧
      e.id = app.currentId + 1 ∧
      (addEmployee app fn ln un pw isHR isMan).currentId = app.currentId + 1 := by
  refine ⟨loadLoop_fst files 1 [], ⟨(Employee.write
    (newEmployee (app.currentId + 1) fn ln un pw isHR isMan) app.fs).2.1, rfl, ?_, rfl⟩⟩
  rw [write_snd_fst]
  rfl

/-- C6 counterexample: on an empty storage the loaded counter is 1 and the
first assigned id is 2, not 1; with a single file named `5.txt` the loaded
counter is 5, not `max + 1 = 6`. -/
theorem nextId_counterexample :
    (loadApp [] ⟨[], []⟩).currentId = 1 ∧
    ((addEmployee (loadApp [] ⟨[], []⟩) "a".toList "b".toList "c".toList "d".toList 0
      0).employees.map (fun e => e.id)) = [2] ∧
    (loadApp [⟨ "5".toList, ".txt".toList, [ "5 u f l p 1".toList]⟩]
      ⟨[], []⟩).currentId = 5 := by
  decide

theorem write_fst_of_fail (e : Employee) (fs : Fs)
    (h : (e.write fs).2.2 = false) : (e.write fs).1 = fs := by
  unfold Employee.write at h ⊢
  dsimp only at h ⊢
  split at h
  · rename_i hc
    rw [if_pos hc]
  · exact absurd h (by simp)

/-- C4 (amended): when saving the new employee's file fails, the add flow
nevertheless appends the employee to the in-memory set — the boolean result
of `write` is discarded — leaving the filesystem unchanged; the set is not
left unchanged as the claim requires. -/
theorem addEmployee_save_failure (app : App) (fn ln un pw : List Char) (isHR isMan : Int)
    (h : (Employee.write (newEmployee (app.currentId + 1) fn ln un pw isHR isMan)
            app.fs).2.2 = false) :
    (addEmployee app fn ln un pw isHR isMan).employees =
      app.employees ++ [{ newEmployee (app.currentId + 1) fn ln un pw isHR isMan with
        file := employeePath (app.currentId + 1) }] ∧
    (addEmployee app fn ln un pw isHR isMan).fs = app.fs ∧
    (addEmployee app fn ln un pw isHR isMan).employees ≠ app.employees := by
  refine ⟨?_, ?_, ?_⟩
  · show app.employees ++ [(Employee.write
      (newEmployee (app.currentId + 1) fn ln un pw isHR isMan) app.fs).2.1] = _
    rw [write_snd_fst]
    rfl
  · show (Employee.write (newEmployee (app.currentId + 1) fn ln un pw isHR isMan)
      app.fs).1 = app.fs
    exact write_fst_of_fail _ _ h
  · show app.employees ++ [(Employee.write
      (newEmployee (app.currentId + 1) fn ln un pw isHR isMan) app.fs).2.1] ≠ app.employees
    intro hEq
    have := congrArg List.length hEq
    simp at this

/-- Witness for C4's amended theorem: a filesystem on which opening
`employees/2.txt` fails. -/
theorem addEmployee_save_failure_witness :
    (addEmployee ⟨defaultEmployee, [], 1, ⟨[], [employeePath 2]⟩⟩ "a".toList "b".toList
        "c".toList "d".toList 0 0).employees =
      [] ++ [{ newEmployee 2 "a".toList "b".toList "c".toList "d".toList 0 0 with
        file := employeePath 2 }] ∧
    (addEmployee ⟨defaultEmployee, [], 1, ⟨[], [employeePath 2]⟩⟩ "a".toList "b".toList
        "c".toList "d".toList 0 0).fs = (⟨[], [employeePath 2]⟩ : Fs) ∧
    (addEmployee ⟨defaultEmployee, [], 1, ⟨[], [employeePath 2]⟩⟩ "a".toList "b".toList
        "c".toList "d".toList 0 0).employees ≠ [] :=
  addEmployee_save_failure ⟨defaultEmployee, [], 1, ⟨[], [employeePath 2]⟩⟩
    "a".toList "b".toList "c".toList "d".toList 0 0 (by decide)

/-- C4 counterexample: with storage refusing to create `employees/2.txt`, the
save fails and still the employee is inserted into the in-memory set. -/
theorem add_inserts_despite_save_failure :
    (Employee.write (newEmployee 2 "a".toList "b".toList "c".toList "d".toList 0 0)
        (⟨[], [employeePath 2]⟩ : Fs)).2.2 = false ∧
    (addEmployee ⟨defaultEmployee, [], 1, ⟨[], [employeePath 2]⟩⟩ "a".toList "b".toList
        "c".toList "d".toList 0 0).employees ≠
      (⟨defaultEmployee, [], 1, ⟨[], [employeePath 2]⟩⟩ : App).employees := by
  decide

theorem removeLoop_of_find_none (fs : Fs) (id : Int) :
    ∀ l : List Employee, l.find? (fun x => x.id == id) = none →
      removeLoop fs id l = (fs, l) := by
  intro l
  induction l with
  | nil => intro _; rfl
  | cons a rest ih =>
      intro h
      cases hp : (a.id == id) with
      | true =>
          simp only [List.find?_cons, hp] at h
          exact absurd h (by simp)
      | false =>
          simp only [List.find?_cons, hp] at h
          have hne : ¬ a.id = id := by simpa using hp
          unfold removeLoop
          rw [if_neg hne]
          dsimp only
          rw [ih h]

theorem removeLoop_of_find_some (fs : Fs) (id : Int) :
    ∀ (l : List Employee) (e : Employee), l.find? (fun x => x.id == id) = some e →
      removeLoop fs id l = (fs.removeFile e.file, l.eraseP (fun x => x.id == id)) := by
  intro l
  induction l with
  | nil => intro e h; exact absurd h (by simp)
  | cons a rest ih =>
      intro e h
      cases hp : (a.id == id) with
      | true =>
          simp only [List.find?_cons, hp] at h
          have ha : a = e := by simpa using h
          subst ha
          have heq : a.id = id := by simpa using hp
          unfold removeLoop
          rw [if_pos heq, List.eraseP_cons_of_pos (p := fun (x : Employee) => x.id == id) hp]
      | false =>
          simp only [List.find?_cons, hp] at h
          have hne : ¬ a.id = id := by simpa using hp
          unfold removeLoop
          rw [if_neg hne]
          dsimp only
          rw [ih e h,
            List.eraseP_cons_of_neg (p := fun (x : Employee) => x.id == id) (by simp [hp])]

/-- C1: `removeEmployeeById` refuses (performs no change) when `id` equals the
currently authenticated employee's id; otherwise, when an employee with that
id exists, it deletes that employee's backing file and erases the (first)
matching in-memory entry; when no employee has that id it leaves the
directory and storage unchanged.  (The C++ method returns `void`; the
booleans of the claim correspond to whether an entry was found and removed,
which the three cases below make explicit.) -/
theorem removeEmployeeById_spec (app : App) (id : Int) :
    (id = app.employee.id → removeEmployeeById app id = app) ∧
    (id ≠ app.employee.id →
      (∀ e, app.employees.find? (fun x => x.id == id) = some e →
        removeEmployeeById app id =
          { app with fs := app.fs.removeFile e.file,
                     employees := app.employees.eraseP (fun x => x.id == id) }) ∧
      (app.employees.find? (fun x => x.id == id) = none →
        removeEmployeeById app id = app)) := by
  refine ⟨?_, ?_⟩
  · intro h
    unfold removeEmployeeById
    rw [if_pos h]
  · intro h
    refine ⟨?_, ?_⟩
    · intro e he
      unfold removeEmployeeById
      rw [if_neg h]
      dsimp only
      rw [removeLoop_of_find_some app.fs id app.employees e he]
    · intro hn
      unfold removeEmployeeById
      rw [if_neg h]
      dsimp only
      rw [removeLoop_of_find_none app.fs id app.employees hn]

/-- Witness for C1: removing id 2 while logged in as id 1, with id 2 present:
the entry and its file go away; the same theorem also covers the self-removal
refusal and the missing-id no-op at this concrete state. -/
theorem removeEmployeeById_spec_witness :
    removeEmployeeById
        ⟨⟨1, [], [], [], [], 31, employeePath 1⟩,
         [⟨1, [], [], [], [], 31, employeePath 1⟩, ⟨2, [], [], [], [], 1, employeePath 2⟩],
         2, ⟨[(employeePath 1, []), (employeePath 2, [])], []⟩⟩ 2 =
      { (⟨⟨1, [], [], [], [], 31, employeePath 1⟩,
         [⟨1, [], [], [], [], 31, employeePath 1⟩, ⟨2, [], [], [], [], 1, employeePath 2⟩],
         2, ⟨[(employeePath 1, []), (employeePath 2, [])], []⟩⟩ : App) with
        fs := (⟨[(employeePath 1, []), (employeePath 2, [])], []⟩ : Fs).removeFile
          (employeePath 2),
        employees := [⟨1, [], [], [], [], 31, employeePath 1⟩] } := by
  have h := ((removeEmployeeById_spec
    ⟨⟨1, [], [], [], [], 31, employeePath 1⟩,
     [⟨1, [], [], [], [], 31, employeePath 1⟩, ⟨2, [], [], [], [], 1, employeePath 2⟩],
     2, ⟨[(employeePath 1, []), (employeePath 2, [])], []⟩⟩ 2).2 (by decide)).1
    ⟨2, [], [], [], [], 1, employeePath 2⟩ (by decide)
  rw [h]
  decide

theorem loginScan_eq_find (u p : List Char) :
    ∀ l : List Employee, loginScan u p l = l.find? (fun e => e.isValidLogin u p) := by
  intro l
  induction l with
  | nil => rfl
  | cons a rest ih =>
      unfold loginScan
      cases hp : a.isValidLogin u p with
      | true =>
          rw [if_pos rfl,
            List.find?_cons_of_pos (p := fun (e : Employee) => e.isValidLogin u p) _ hp]
      | false =>
          rw [if_neg (by simp),
            List.find?_cons_of_neg (p := fun (e : Employee) => e.isValidLogin u p) _
              (by simp [hp]), ih]

/-- C7: `login` (the `authenticate` operation) returns, for every credential
pair matching some stored employee, the first stored employee in scan order
whose username and password both match exactly (storing it as the logged-in
identity), and reports failure for every pair matching no stored employee. -/
theorem login_spec (app : App) (u p : List Char) :
    (∀ e, app.employees.find? (fun x => x.isValidLogin u p) = some e →
      login app u p = ({ app with employee := e }, true)) ∧
    ((∀ e ∈ app.employees, e.isValidLogin u p = false) → login app u p = (app, false)) := by
  constructor
  · intro e h
    unfold login
    rw [loginScan_eq_find, h]
  · intro h
    unfold login
    rw [loginScan_eq_find, List.find?_eq_none.mpr (by intro e he; simp [h e he])]

/-- Witness for C7: the stored credential pair finds its employee, a wrong
pair fails, at a concrete two-employee state. -/
theorem login_spec_witness :
    login ⟨defaultEmployee,
        [⟨1, [], [], "testing".toList, "password".toList, 31, []⟩,
         ⟨2, [], [], "bob".toList, "pw".toList, 1, []⟩], 2, ⟨[], []⟩⟩
      "bob".toList "pw".toList =
      ({ (⟨defaultEmployee,
        [⟨1, [], [], "testing".toList, "password".toList, 31, []⟩,
         ⟨2, [], [], "bob".toList, "pw".toList, 1, []⟩], 2, ⟨[], []⟩⟩ : App) with
        employee := ⟨2, [], [], "bob".toList, "pw".toList, 1, []⟩ }, true) ∧
    login ⟨defaultEmployee,
        [⟨1, [], [], "testing".toList, "password".toList, 31, []⟩,
         ⟨2, [], [], "bob".toList, "pw".toList, 1, []⟩], 2, ⟨[], []⟩⟩
      "bob".toList "nope".toList =
      (⟨defaultEmployee,
        [⟨1, [], [], "testing".toList, "password".toList, 31, []⟩,
         ⟨2, [], [], "bob".toList, "pw".toList, 1, []⟩], 2, ⟨[], []⟩⟩, false) :=
  ⟨(login_spec ⟨defaultEmployee,
        [⟨1, [], [], "testing".toList, "password".toList, 31, []⟩,
         ⟨2, [], [], "bob".toList, "pw".toList, 1, []⟩], 2, ⟨[], []⟩⟩
      "bob".toList "pw".toList).1 ⟨2, [], [], "bob".toList, "pw".toList, 1, []⟩ (by decide),
   (login_spec ⟨defaultEmployee,
        [⟨1, [], [], "testing".toList, "password".toList, 31, []⟩,
         ⟨2, [], [], "bob".toList, "pw".toList, 1, []⟩], 2, ⟨[], []⟩⟩
      "bob".toList "nope".toList).2 (by decide)⟩

/-- C10: when the credential pair matches no stored employee, `login` returns
false and leaves the whole state — in particular the authenticated-identity
slot — unchanged; the logged-in employee changes only when `login` succeeds. -/
theorem login_failure_spec (app : App) (u p : List Char) :
    ((login app u p).2 = false → (login app u p).1 = app) ∧
    ((login app u p).1.employee ≠ app.employee → (login app u p).2 = true) := by
  unfold login
  cases h : loginScan u p app.employees with
  | none =>
      constructor
      · intro _; rfl
      · intro hne; exact absurd rfl hne
  | some e =>
      constructor
      · intro hfalse; exact absurd hfalse (by simp)
      · intro _; rfl

/-- Witness for C10: a failing login at a concrete state returns false and
preserves the state. -/
theorem login_failure_spec_witness :
    (login ⟨defaultEmployee, [⟨1, [], [], "testing".toList, "password".toList, 31, []⟩],
        1, ⟨[], []⟩⟩ "testing".toList "wrong".toList).1 =
      ⟨defaultEmployee, [⟨1, [], [], "testing".toList, "password".toList, 31, []⟩],
        1, ⟨[], []⟩⟩ :=
  (login_failure_spec ⟨defaultEmployee,
      [⟨1, [], [], "testing".toList, "password".toList, 31, []⟩], 1, ⟨[], []⟩⟩
    "testing".toList "wrong".toList).1 (by decide)

theorem digitChar_is_digit : ∀ d < 10, isDigitB (digitChar d) = true := by decide

theorem digitChar_val : ∀ d < 10, digitVal (digitChar d) = d := by decide

theorem digit_not_ws {c : Char} (h : isDigitB c = true) : isWsB c = false := by
  unfold isDigitB at h
  have hb : 48 ≤ c.toNat ∧ c.toNat ≤ 57 := of_decide_eq_true h
  unfold isWsB
  have h32 : (c == ' ') = false := by
    apply beq_eq_false_iff_ne.mpr
    intro hc
    rw [hc] at hb
    simp at hb
  have h9 : (c == '\t') = false := by
    apply beq_eq_false_iff_ne.mpr
    intro hc
    rw [hc] at hb
    simp at hb
  have h10 : (c == '\n') = false := by
    apply beq_eq_false_iff_ne.mpr
    intro hc
    rw [hc] at hb
    simp at hb
  have h11 : (c == Char.ofNat 11) = false := by
    apply beq_eq_false_iff_ne.mpr
    intro hc
    rw [hc] at hb
    simp at hb
  have h12 : (c == Char.ofNat 12) = false := by
    apply beq_eq_false_iff_ne.mpr
    intro hc
    rw [hc] at hb
    simp at hb
  have h13 : (c == '\r') = false := by
    apply beq_eq_false_iff_ne.mpr
    intro hc
    rw [hc] at hb
    simp at hb
  rw [h32, h9, h10, h11, h12, h13]
  rfl

theorem digit_not_dash {c : Char} (h : isDigitB c = true) :
    (c == '-') = false ∧ (c == '+') = false := by
  unfold isDigitB at h
  have hb : 48 ≤ c.toNat ∧ c.toNat ≤ 57 := of_decide_eq_true h
  constructor
  · apply beq_eq_false_iff_ne.mpr
    intro hc
    rw [hc] at hb
    simp at hb
  · apply beq_eq_false_iff_ne.mpr
    intro hc
    rw [hc] at hb
    simp at hb

theorem natCharsAux_all_digits : ∀ fuel n : Nat, ∀ c ∈ natCharsAux fuel n, isDigitB c = true := by
  intro fuel
  induction fuel with
  | zero => intro n c hc; exact absurd hc (by simp [natCharsAux])
  | succ f ih =>
      intro n c hc
      unfold natCharsAux at hc
      by_cases hn : n = 0
      · rw [if_pos hn] at hc
        exact absurd hc (by simp)
      · rw [if_neg hn] at hc
        rcases List.mem_append.mp hc with h1 | h2
        · exact ih (n / 10) c h1
        · have : c = digitChar (n % 10) := by simpa using h2
          rw [this]
          exact digitChar_is_digit (n % 10) (Nat.mod_lt n (by norm_num))

theorem natChars_all_digits (n : Nat) : ∀ c ∈ natChars n, isDigitB c = true := by
  unfold natChars
  by_cases hn : n = 0
  · rw [if_pos hn]
    decide
  · rw [if_neg hn]
    exact natCharsAux_all_digits n n

theorem natChars_ne_nil (n : Nat) : natChars n ≠ [] := by
  unfold natChars
  by_cases hn : n = 0
  · rw [if_pos hn]
    simp
  · rw [if_neg hn]
    cases n with
    | zero => exact absurd rfl hn
    | succ m =>
        unfold natCharsAux
        rw [if_neg hn]
        simp

theorem digitsVal_append_one (a : List Char) (c : Char) :
    digitsVal (a ++ [c]) = 10 * digitsVal a + digitVal c := by
  unfold digitsVal
  rw [List.foldl_append]
  simp [Nat.mul_comm]

theorem natCharsAux_val : ∀ fuel n : Nat, n ≤ fuel → digitsVal (natCharsAux fuel n) = n := by
  intro fuel
  induction fuel with
  | zero =>
      intro n hn
      interval_cases n
      rfl
  | succ f ih =>
      intro n hn
      unfold natCharsAux
      by_cases h0 : n = 0
      · rw [if_pos h0, h0]
        rfl
      · rw [if_neg h0]
        have hpos : 0 < n := Nat.pos_of_ne_zero h0
        have hdiv : n / 10 ≤ f := by
          have := Nat.div_lt_self hpos (by norm_num : 1 < 10)
          omega
        rw [digitsVal_append_one, ih (n / 10) hdiv,
          digitChar_val (n % 10) (Nat.mod_lt n (by norm_num))]
        omega

theorem natChars_val (n : Nat) : digitsVal (natChars n) = n := by
  unfold natChars
  by_cases hn : n = 0
  · rw [if_pos hn, hn]
    rfl
  · rw [if_neg hn]
    exact natCharsAux_val n n le_rfl

theorem takeWhile_append_all {p : Char → Bool} :
    ∀ l₁ l₂ : List Char, (∀ c ∈ l₁, p c = true) →
      (l₁ ++ l₂).takeWhile p = l₁ ++ l₂.takeWhile p := by
  intro l₁
  induction l₁ with
  | nil => intro l₂ _; rfl
  | cons a t ih =>
      intro l₂ h
      rw [List.cons_append, List.takeWhile_cons, if_pos (h a (List.mem_cons_self a t)),
        ih l₂ (fun c hc => h c (List.mem_cons_of_mem a hc)), List.cons_append]

theorem dropWhile_append_all {p : Char → Bool} :
    ∀ l₁ l₂ : List Char, (∀ c ∈ l₁, p c = true) →
      (l₁ ++ l₂).dropWhile p = l₂.dropWhile p := by
  intro l₁
  induction l₁ with
  | nil => intro l₂ _; rfl
  | cons a t ih =>
      intro l₂ h
      rw [List.cons_append, List.dropWhile_cons, if_pos (h a (List.mem_cons_self a t))]
      exact ih l₂ (fun c hc => h c (List.mem_cons_of_mem a hc))

theorem takeWhile_head_neg {p : Char → Bool} (l : List Char)
    (h : ∀ c, l.head? = some c → p c = false) : l.takeWhile p = [] := by
  cases l with
  | nil => rfl
  | cons a t =>
      rw [List.takeWhile_cons, if_neg (by simp [h a rfl])]

theorem dropWhile_head_neg {p : Char → Bool} (l : List Char)
    (h : ∀ c, l.head? = some c → p c = false) : l.dropWhile p = l := by
  cases l with
  | nil => rfl
  | cons a t =>
      rw [List.dropWhile_cons, if_neg (by simp [h a rfl])]

theorem extractStr_cons_ws (c : Char) (b old : List Char) (h : isWsB c = true) :
    extractStr ⟨c :: b, false⟩ old = extractStr ⟨b, false⟩ old := by
  have hd : (c :: b).dropWhile isWsB = b.dropWhile isWsB := by
    rw [List.dropWhile_cons, if_pos h]
  unfold extractStr
  dsimp only
  rw [if_neg Bool.false_ne_true, if_neg Bool.false_ne_true, hd]

theorem extractInt_cons_ws (c : Char) (b : List Char) (old : Int) (h : isWsB c = true) :
    extractInt ⟨c :: b, false⟩ old = extractInt ⟨b, false⟩ old := by
  have hd : (c :: b).dropWhile isWsB = b.dropWhile isWsB := by
    rw [List.dropWhile_cons, if_pos h]
  unfold extractInt
  dsimp only
  rw [if_neg Bool.false_ne_true, if_neg Bool.false_ne_true, hd]

theorem head_append_cons (a : Char) (t rest : List Char) :
    ((a :: t) ++ rest).head? = some a := by
  rw [List.cons_append]
  rfl

theorem extractStr_serialized (tok rest old : List Char) (htok : tok ≠ [])
    (hws : ∀ c ∈ tok, isWsB c = false)
    (hrest : ∀ c, rest.head? = some c → isWsB c = true) :
    extractStr ⟨tok ++ rest, false⟩ old = (⟨rest, false⟩, tok) := by
  obtain ⟨a, t, rfl⟩ : ∃ a t, tok = a :: t := by
    cases tok with
    | nil => exact absurd rfl htok
    | cons a t => exact ⟨a, t, rfl⟩
  unfold extractStr
  rw [if_neg (by simp)]
  dsimp only
  have e1 : ((a :: t) ++ rest).dropWhile isWsB = (a :: t) ++ rest := by
    apply dropWhile_head_neg
    intro c hc
    rw [head_append_cons] at hc
    have ha : a = c := by simpa using hc
    exact ha ▸ hws a (List.mem_cons_self a t)
  rw [e1, if_neg (by simp)]
  have e2 : ((a :: t) ++ rest).takeWhile (fun c => !(isWsB c)) = a :: t := by
    rw [takeWhile_append_all (a :: t) rest (fun c hc => by simp [hws c hc]),
      takeWhile_head_neg rest (fun c hc => by simp [hrest c hc]), List.append_nil]
  have e3 : ((a :: t) ++ rest).dropWhile (fun c => !(isWsB c)) = rest := by
    rw [dropWhile_append_all (a :: t) rest (fun c hc => by simp [hws c hc])]
    apply dropWhile_head_neg
    intro c hc
    simp [hrest c hc]
  rw [e2, e3]

theorem extractInt_serialized (i : Int) (rest : List Char) (old : Int)
    (hrest : ∀ c, rest.head? = some c → isDigitB c = false) :
    extractInt ⟨intChars i ++ rest, false⟩ old = (⟨rest, false⟩, i) := by
  obtain ⟨a, t, hL⟩ : ∃ a t, natChars i.natAbs = a :: t := by
    cases hN : natChars i.natAbs with
    | nil => exact absurd hN (natChars_ne_nil _)
    | cons a t => exact ⟨a, t, rfl⟩
  have hall : ∀ c ∈ a :: t, isDigitB c = true := by
    rw [← hL]
    exact natChars_all_digits _
  have hda : isDigitB a = true := hall a (List.mem_cons_self a t)
  have htake : ((a :: t) ++ rest).takeWhile isDigitB = a :: t := by
    rw [takeWhile_append_all (a :: t) rest hall, takeWhile_head_neg rest hrest, List.append_nil]
  have hdrop2 : ((a :: t) ++ rest).dropWhile isDigitB = rest := by
    rw [dropWhile_append_all (a :: t) rest hall]
    exact dropWhile_head_neg rest hrest
  have hval : Int.ofNat (digitsVal (a :: t)) = Int.ofNat i.natAbs := by
    rw [← hL, natChars_val]
  rcases lt_or_ge i 0 with hneg | hpos
  · have hI : intChars i = '-' :: natChars i.natAbs := by
      unfold intChars
      rw [if_pos hneg]
    rw [hI, hL, List.cons_append]
    unfold extractInt
    dsimp only
    rw [if_neg Bool.false_ne_true]
    have e1 : ('-' :: ((a :: t) ++ rest)).dropWhile isWsB = '-' :: ((a :: t) ++ rest) := by
      rw [List.dropWhile_cons, if_neg (by decide)]
    rw [e1, if_neg (by simp)]
    have h1 : (('-' :: ((a :: t) ++ rest)).head? == some '-') = true := rfl
    have h2 : (('-' :: ((a :: t) ++ rest)).head? == some '+') = false := rfl
    rw [h1, h2, Bool.true_or, if_pos rfl, List.tail_cons, htake, if_neg (by simp), hdrop2,
      if_pos rfl]
    have hv : -Int.ofNat (digitsVal (a :: t)) = i := by
      rw [hval]
      show -(i.natAbs : Int) = i
      omega
    rw [hv]
  · have hI : intChars i = natChars i.natAbs := by
      unfold intChars
      rw [if_neg (not_lt.mpr hpos)]
    rw [hI, hL]
    unfold extractInt
    dsimp only
    rw [if_neg Bool.false_ne_true]
    have e1 : ((a :: t) ++ rest).dropWhile isWsB = (a :: t) ++ rest := by
      apply dropWhile_head_neg
      intro c hc
      rw [head_append_cons] at hc
      have hac : a = c := by simpa using hc
      exact hac ▸ digit_not_ws hda
    rw [e1, if_neg (by simp)]
    have h1 : (((a :: t) ++ rest).head? == some '-') = false := by
      rw [head_append_cons]
      exact (digit_not_dash hda).1
    have h2 : (((a :: t) ++ rest).head? == some '+') = false := by
      rw [head_append_cons]
      exact (digit_not_dash hda).2
    rw [h1, h2, Bool.false_or, if_neg Bool.false_ne_true, htake, if_neg (by simp), hdrop2,
      if_neg Bool.false_ne_true]
    have hv : Int.ofNat (digitsVal (a :: t)) = i := by
      rw [hval]
      show (i.natAbs : Int) = i
      omega
    rw [hv]

/-- C2 (amended): deserializing the line produced by serializing an employee
reproduces all six fields exactly, provided the four string fields are
nonempty and contain no whitespace; a name with an internal space is split at
the space by the whitespace-delimited format, so the unrestricted claim
fails. -/
theorem serialize_roundTrip (e e0 : Employee) (pth : List Char)
    (hu : e.username ≠ []) (hu2 : ∀ c ∈ e.username, isWsB c = false)
    (hf : e.firstName ≠ []) (hf2 : ∀ c ∈ e.firstName, isWsB c = false)
    (hl : e.lastName ≠ []) (hl2 : ∀ c ∈ e.lastName, isWsB c = false)
    (hp : e.password ≠ []) (hp2 : ∀ c ∈ e.password, isWsB c = false) :
    fromLinesFile [serializeLine e] pth e0 = { e with file := pth } := by
  have hsp : isWsB ' ' = true := by decide
  have hspd : ∀ c : Char, (' ' :: (e.username ++ ' ' :: (e.firstName ++ ' ' :: (e.lastName ++ ' ' :: (e.password ++ ' ' :: intChars e.permissions))))).head? = some c → isDigitB c = false := by
    intro c hc
    have hc' : ' ' = c := by simpa using hc
    rw [← hc']
    decide
  have h1 : extractInt ⟨serializeLine e, false⟩ e0.id =
      (⟨' ' :: (e.username ++ ' ' :: (e.firstName ++ ' ' :: (e.lastName ++ ' ' :: (e.password ++ ' ' :: intChars e.permissions)))), false⟩, e.id) := by
    unfold serializeLine
    exact extractInt_serialized e.id (' ' :: (e.username ++ ' ' :: (e.firstName ++ ' ' :: (e.lastName ++ ' ' :: (e.password ++ ' ' :: intChars e.permissions))))) e0.id hspd
  have h2 : extractStr ⟨' ' :: (e.username ++ ' ' :: (e.firstName ++ ' ' :: (e.lastName ++ ' ' :: (e.password ++ ' ' :: intChars e.permissions)))), false⟩ e0.username =
      (⟨' ' :: (e.firstName ++ ' ' :: (e.lastName ++ ' ' :: (e.password ++ ' ' :: intChars e.permissions))), false⟩, e.username) := by
    rw [extractStr_cons_ws _ _ _ hsp]
    apply extractStr_serialized _ _ _ hu hu2
    intro c hc
    have hc' : ' ' = c := by simpa using hc
    rw [← hc']
    exact hsp
  have h3 : extractStr ⟨' ' :: (e.firstName ++ ' ' :: (e.lastName ++ ' ' :: (e.password ++ ' ' :: intChars e.permissions))), false⟩ e0.firstName =
      (⟨' ' :: (e.lastName ++ ' ' :: (e.password ++ ' ' :: intChars e.permissions)), false⟩, e.firstName) := by
    rw [extractStr_cons_ws _ _ _ hsp]
    apply extractStr_serialized _ _ _ hf hf2
    intro c hc
    have hc' : ' ' = c := by simpa using hc
    rw [← hc']
    exact hsp
  have h4 : extractStr ⟨' ' :: (e.lastName ++ ' ' :: (e.password ++ ' ' :: intChars e.permissions)), false⟩ e0.lastName =
      (⟨' ' :: (e.password ++ ' ' :: intChars e.permissions), false⟩, e.lastName) := by
    rw [extractStr_cons_ws _ _ _ hsp]
    apply extractStr_serialized _ _ _ hl hl2
    intro c hc
    have hc' : ' ' = c := by simpa using hc
    rw [← hc']
    exact hsp
  have h5 : extractStr ⟨' ' :: (e.password ++ ' ' :: intChars e.permissions), false⟩ e0.password =
      (⟨' ' :: intChars e.permissions, false⟩, e.password) := by
    rw [extractStr_cons_ws _ _ _ hsp]
    apply extractStr_serialized _ _ _ hp hp2
    intro c hc
    have hc' : ' ' = c := by simpa using hc
    rw [← hc']
    exact hsp
  have h6 : extractInt ⟨' ' :: intChars e.permissions, false⟩ e0.permissions =
      (⟨([] : List Char), false⟩, e.permissions) := by
    rw [extractInt_cons_ws _ _ _ hsp]
    rw [show intChars e.permissions = intChars e.permissions ++ [] from
      (List.append_nil _).symm]
    apply extractInt_serialized
    intro c hc
    exact absurd hc (by simp)
  unfold fromLinesFile
  rw [List.foldl_cons, List.foldl_nil]
  unfold fromLine
  dsimp only
  rw [h1]
  dsimp only
  rw [h2]
  dsimp only
  rw [h3]
  dsimp only
  rw [h4]
  dsimp only
  rw [h5]
  dsimp only
  rw [h6]

/-- Witness for C2's amended theorem at a concrete whitespace-free employee. -/
theorem serialize_roundTrip_witness :
    fromLinesFile [serializeLine ⟨7, "Titus".toList, "Moore".toList, "testing".toList,
        "password".toList, 31, []⟩] [] defaultEmployee =
      { (⟨7, "Titus".toList, "Moore".toList, "testing".toList, "password".toList, 31,
          []⟩ : Employee) with file := ([] : List Char) } :=
  serialize_roundTrip ⟨7, "Titus".toList, "Moore".toList, "testing".toList,
      "password".toList, 31, []⟩ defaultEmployee []
    (by decide) (by decide) (by decide) (by decide) (by decide) (by decide)
    (by decide) (by decide)

/-- C2 counterexample: a first name with an internal space does not survive
the round trip — `Ann Marie` comes back as `Ann`. -/
theorem roundtrip_space_fails :
    (fromLinesFile [serializeLine ⟨1, "Ann Marie".toList, "Moore".toList, "am".toList,
        "pw".toList, 3, []⟩] [] defaultEmployee).firstName ≠
      (⟨1, "Ann Marie".toList, "Moore".toList, "am".toList, "pw".toList, 3,
        []⟩ : Employee).firstName := by
  decide

/-- C3 (amended): `Employee::from` reports failure only when the file cannot
be opened; any content that does open — including lines with fewer than six
tokens or non-integer id/permissions fields — is accepted (extraction simply
stops at the first failure, leaving the remaining fields at their prior
values), and the directory load inserts an in-memory entry for every file,
continuing rather than aborting; only the next-id update is guarded against
filenames that fail integer parsing. -/
theorem fromFile_total_load_inserts_all (lines : List (List Char)) (path : List Char)
    (e : Employee) (files : List DirFile) (fs : Fs) :
    employeeFrom none path e = none ∧
    (employeeFrom (some lines) path e).isSome = true ∧
    (loadApp files fs).employees =
      files.map (fun f => fromLinesFile f.lines f.path defaultEmployee) := by
  refine ⟨rfl, rfl, ?_⟩
  show (loadLoop 1 [] files).2 = _
  rw [loadLoop_snd files 1 []]
  rfl

/-- C3 counterexample: the two-token line `1 2` parses "successfully"
(`Employee::from` returns true) and the load inserts the resulting record
instead of skipping the file. -/
theorem malformed_record_accepted :
    (employeeFrom (some [ "1 2".toList]) [] defaultEmployee).isSome = true ∧
    employeeFrom (some [ "1 2".toList]) [] defaultEmployee ≠ none ∧
    (loadApp [⟨ "9".toList, ".txt".toList, [ "1 2".toList]⟩] ⟨[], []⟩).employees.length
      = 1 := by
  decide
